import Mathlib

/-!
Shallow embedding of the synchronization core of the node-red-dashboard
repository, together with theorems settling the specification claims.

The embedded source files are:
- the ui-base node (src/unnamed/part_002): the debounced ui-config
  broadcast (requestEmitConfig), connection eligibility (canSendTo,
  isValidConnection), the merged config emission (emitConfig), the
  widget registry lifecycle (node.register default-state seeding and
  node.deregister), and the widget-action router (onAction);
- the chart widget (src/nodes/widgets/ui_chart.js): the three history
  eviction policies run inside its onInput handler.

JavaScript Maps and plain objects are embedded as association lists over
String keys; the stores that live outside the given sources
(src/store/state.js and src/store/data.js) are modelled from the spec.
Stateful code is translated to explicit state passing.
-/

namespace NodeRedDashboard

/-- Association list lookup over String keys, mirroring JavaScript
Map.get and plain object indexing: the first matching key wins. -/
def alookup {α : Type} (k : String) : List (String × α) → Option α
  | [] => none
  | kv :: rest => if kv.1 = k then some kv.2 else alookup k rest

/-- Association list update, mirroring JavaScript object key assignment:
an existing key keeps its position and gets the new value, a new key is
appended at the end (JavaScript string-key insertion order). -/
def aset {α : Type} (k : String) (v : α) : List (String × α) → List (String × α)
  | [] => [(k, v)]
  | kv :: rest => if kv.1 = k then (kv.1, v) :: rest else kv :: aset k v rest

/-- Association list removal, mirroring JavaScript Map.delete (keys in a
Map are unique, so removing the first match removes the entry). -/
def adelete {α : Type} (k : String) : List (String × α) → List (String × α)
  | [] => []
  | kv :: rest => if kv.1 = k then rest else kv :: adelete k rest

/-- Keys of an association list. -/
def akeys {α : Type} (l : List (String × α)) : List String :=
  l.map Prod.fst

/-- Values of an association list, mirroring JavaScript Object.values. -/
def avalues {α : Type} (l : List (String × α)) : List α :=
  l.map Prod.snd

/-!
Broadcast coordinator debounce (ui-base, node.requestEmitConfig,
src/unnamed/part_002 lines 753 to 767).

node.emitConfigRequested holds the pending timer handle (truthy while an
emission is scheduled); it is modelled as the scheduled fire time. Each
timer fire emits the ui-config event once to every connected socket, and
only then clears the pending flag (the JavaScript finally block). One
element of the emitted trace is one such fan-out, recorded as the list of
socket ids it reached.
-/

/-- Debounce state of one ui-base node: the pending timer (none when no
emission is scheduled; some t when a timer is scheduled to fire at t) and
the trace of config fan-outs already performed. -/
structure DebounceState where
  emitConfigRequested : Option Nat
  emitted : List (List String)
deriving DecidableEq, Repr

/-- Debounce quiescence interval of requestEmitConfig: 300 time units. -/
def debounceInterval : Nat := 300

/-- node.requestEmitConfig (src/unnamed/part_002 lines 753 to 767): if an
emission is already pending this is a no-op, otherwise a timer is
scheduled debounceInterval after the current time. -/
def requestEmitConfig (now : Nat) (s : DebounceState) : DebounceState :=
  match s.emitConfigRequested with
  | some _ => s
  | none => { s with emitConfigRequested := some (now + debounceInterval) }

/-- The timer callback of requestEmitConfig firing: emitConfig is emitted
once to every currently connected socket, and the pending flag is cleared
afterwards (the finally block). -/
def fireEmitTimer (conns : List String) (s : DebounceState) : DebounceState :=
  { emitConfigRequested := none, emitted := s.emitted ++ [conns] }

/-!
Connection eligibility (ui-base canSendTo and isValidConnection,
src/unnamed/part_002 lines 329 to 357).
-/

/-- A SocketIO connection, identified by its socket id. -/
structure Conn where
  id : String
deriving DecidableEq, Repr

/-- The msg client descriptor (the msg field named _client in the
source): an optional target socket id. -/
structure ClientInfo where
  socketId : Option String
deriving DecidableEq, Repr

/-- A message as seen by the eligibility check: only the optional client
descriptor matters (the msg field named _client in the source). -/
structure MsgC where
  client : Option ClientInfo
deriving DecidableEq, Repr

/-- The widget node a message is being sent on behalf of: only its type
tag matters to canSendTo. -/
structure WNodeC where
  type : String
deriving DecidableEq, Repr

/-- The target socket id declared by a message: the source reads
msg._client?.socketId with optional chaining. -/
def msgSocketId (msg : MsgC) : Option String :=
  match msg.client with
  | some ci => ci.socketId
  | none => none

/-- isValidConnection (src/unnamed/part_002 lines 340 to 357): collect
the results of every plugin onIsValidConnection hook; when the message
declares a (truthy, hence non-empty) target socket id, also push the core
check that it equals the id of this connection; the message is valid for
the connection when there are no checks or no check is false. -/
def isValidConnection (hooks : List (Conn → MsgC → Bool)) (conn : Conn) (msg : MsgC) : Bool :=
  let checks := hooks.map (fun h => h conn msg)
  let checks :=
    match msgSocketId msg with
    | some sid => if sid = "" then checks else checks ++ [sid == conn.id]
    | none => checks
  checks.isEmpty || !(checks.contains false)

/-- The first conjunct of canSendTo: a null widget node always allows
constraints, otherwise the widget type must be listed in the ui-base
acceptsClientConfig setting. -/
def nodeAllowsConstraints (acceptsClientConfig : List String) (wNode : Option WNodeC) : Bool :=
  match wNode with
  | some w => acceptsClientConfig.contains w.type
  | none => true

/-- canSendTo (src/unnamed/part_002 lines 329 to 332): the message may be
sent to the connection when the widget node allows client constraints and
the connection is valid for the message, or when the widget node does not
allow client constraints at all (in which case the constraint is ignored
and the message goes to every connection). -/
def canSendTo (acceptsClientConfig : List String) (hooks : List (Conn → MsgC → Bool))
    (conn : Conn) (wNode : Option WNodeC) (msg : MsgC) : Bool :=
  (nodeAllowsConstraints acceptsClientConfig wNode && isValidConnection hooks conn msg)
    || !(nodeAllowsConstraints acceptsClientConfig wNode)

/-- The backwards-compatibility default of the acceptsClientConfig
setting, set in init (src/unnamed/part_002 lines 59 to 62). -/
def defaultAcceptsClientConfig : List String :=
  ["ui-control", "ui-notification"]

/-!
Widget registry lifecycle: node.deregister (src/unnamed/part_002 lines
1017 to 1054).
-/

/-- A registered widget as stored in node.ui.widgets, restricted to the
fields node.deregister reads: the group id under props and whether the
hook set declares onSocket handlers. -/
structure WidgetRec where
  propsGroup : Option String
  hooksOnSocket : Bool
deriving DecidableEq, Repr

/-- A registered group as stored in node.ui.groups: the id of the page
it belongs to. -/
structure GroupRec where
  page : String
deriving DecidableEq, Repr

/-- The page argument of deregister: only its id is read. -/
structure PageRef where
  id : String
deriving DecidableEq, Repr

/-- The group argument of deregister: only its id is read. -/
structure GroupRef where
  id : String
deriving DecidableEq, Repr

/-- The widgetNode argument of deregister: only its id is read. -/
structure WNodeRef where
  id : String
deriving DecidableEq, Repr

/-- The node.ui registry maps of one ui-base node (page and dashboard and
theme records are opaque to deregister, so they are kept as unit). -/
structure UIRegistry where
  dashboards : List (String × Unit)
  themes : List (String × Unit)
  pages : List (String × Unit)
  groups : List (String × GroupRec)
  widgets : List (String × WidgetRec)
deriving DecidableEq, Repr

/-- A JavaScript runtime error raised by the embedded code. -/
inductive JsError where
  | typeError
deriving DecidableEq, Repr

/-- Spreading a JavaScript Map yields two-element [key, value] arrays.
Such an array has no props property, so the expression w.props?.group
written in deregister over the spread of node.ui.widgets evaluates to
undefined for every entry. -/
def spreadEntryPropsGroup (_ : String × WidgetRec) : Option String := none

/-- Spreading node.ui.groups likewise yields [key, value] arrays with no
page property, so g.page written in deregister evaluates to undefined for
every entry. -/
def spreadEntryPage (_ : String × GroupRec) : Option String := none

/-- node.deregister (src/unnamed/part_002 lines 1017 to 1054), as state
passing over the registry. When a widgetNode is given, the widget is
looked up in node.ui.widgets and its hooks field is dereferenced: when
the id is absent that dereference throws a TypeError (the socket-listener
removal itself does not touch the node.ui maps and is elided); otherwise
the widget entry is deleted. When a group is given, the group is deleted
whenever the filter over the spread widgets Map is empty, and likewise
for a given page over the spread groups Map. The returned boolean records
whether any removal happened, in which case the source calls
node.requestEmitConfig. -/
def deregister (page : Option PageRef) (group : Option GroupRef)
    (widgetNode : Option WNodeRef) (ui : UIRegistry) :
    Except JsError (UIRegistry × Bool) :=
  let step1 : Except JsError (UIRegistry × Bool) :=
    match widgetNode with
    | none => .ok (ui, false)
    | some wn =>
      match alookup wn.id ui.widgets with
      | none => .error .typeError
      | some _widget => .ok ({ ui with widgets := adelete wn.id ui.widgets }, true)
  match step1 with
  | .error e => .error e
  | .ok (ui1, c1) =>
    let out2 : UIRegistry × Bool :=
      match group with
      | some g =>
        if (ui1.widgets.filter (fun w => spreadEntryPropsGroup w == some g.id)).length = 0
        then ({ ui1 with groups := adelete g.id ui1.groups }, true)
        else (ui1, c1)
      | none => (ui1, c1)
    let out3 : UIRegistry × Bool :=
      match page with
      | some p =>
        if (out2.1.groups.filter (fun g2 => spreadEntryPage g2 == some p.id)).length = 0
        then ({ out2.1 with pages := adelete p.id out2.1.pages }, true)
        else out2
      | none => out2
    .ok out3

/-- Concrete registry for exercising deregister: one page, one group on
it, and two widgets both belonging to that group. -/
def uiTwoWidgets : UIRegistry :=
  { dashboards := [("d1", ())]
    themes := [("t1", ())]
    pages := [("p1", ())]
    groups := [("g1", ⟨"p1"⟩)]
    widgets := [("w1", ⟨some "g1", false⟩), ("w2", ⟨some "g1", false⟩)] }

/-!
State store defaults seeded by node.register (src/unnamed/part_002 lines
807 to 817).

The state store itself lives in src/store/state.js, which is not among
the given sources.
-/

/-- A dynamically stored property value. -/
inductive SVal where
  | b (v : Bool)
  | s (v : String)
  | i (v : Int)
deriving DecidableEq, Repr

/-- Modelled from the spec: the State Store of src/store/state.js, which
is not among the given sources. Spec section 3 StateEntry: a
property-level key/value store keyed by widget id, mapping
(widgetId, propertyName) to a value, where reading any property not yet
set returns the undefined sentinel. Embedded as an association list from
widget id to an association list of properties. -/
def StateStore : Type := List (String × List (String × SVal))

/-- Modelled from the spec: statestore.getProperty reads one property of
one widget id, returning none (undefined) when it was never set. -/
def getProperty (store : StateStore) (id prop : String) : Option SVal :=
  match alookup id store with
  | none => none
  | some entries => alookup prop entries

/-- Modelled from the spec: statestore.set stores one property value for
one widget id (the base, node and msg arguments of the source signature
carry no information used here). -/
def setProperty : StateStore → String → String → SVal → StateStore
  | [], id, prop, v => [(id, [(prop, v)])]
  | kv :: rest, id, prop, v =>
    if kv.1 = id then (kv.1, aset prop v kv.2) :: rest
    else kv :: setProperty rest id prop v

/-- Modelled from the spec: statestore.getAll returns the full property
bag stored for one id, undefined (none) when the id has no entry. -/
def getAll (store : StateStore) (id : String) : Option (List (String × SVal)) :=
  alookup id store

/-- The default-state seeding performed at the top of node.register
(src/unnamed/part_002 lines 807 to 817): each of enabled, visible and
class is written only when getProperty currently returns undefined for
it. -/
def registerDefaultStates (widgetId : String) (store : StateStore) : StateStore :=
  let s1 := if getProperty store widgetId "enabled" = none
            then setProperty store widgetId "enabled" (SVal.b true) else store
  let s2 := if getProperty s1 widgetId "visible" = none
            then setProperty s1 widgetId "visible" (SVal.b true) else s1
  let s3 := if getProperty s2 widgetId "class" = none
            then setProperty s2 widgetId "class" (SVal.s "") else s2
  s3

/-!
Chart history eviction (ui-chart onInput, src/nodes/widgets/ui_chart.js
lines 136 to 226). The data store (src/store/data.js) used for the
history is not among the given sources; per spec section 3 HistoryEntry
it is an ordered per-widget sequence of stored messages kept in insertion
order, so datastore.get / save / append are embedded as reading,
replacing and appending to a plain list, passed as explicit state.
-/

/-- The x value of a derived datapoint: either numeric epoch
milliseconds or a date-like string. -/
inductive XVal where
  | num (t : Int)
  | str (s : String)
deriving DecidableEq, Repr

/-- A stored chart history message, restricted to the fields the
eviction policies read: the derived datapoint category, the series label
msg.topic, and the datapoint x timestamp. Category and topic are used as
JavaScript object keys by the eviction code, hence embedded as strings. -/
structure ChartMsg where
  category : String
  topic : String
  x : XVal
deriving DecidableEq, Repr

/-- Positions paired with elements, starting at offset i: the (index,
element) pairs a JavaScript forEach or filter callback receives. -/
def idxList (i : Nat) : List ChartMsg → List (Nat × ChartMsg)
  | [] => []
  | m :: rest => (i, m) :: idxList (i + 1) rest

/-- The seen object built by the categorical filter (ui_chart.js lines
174 to 179): a forEach over the history recording, for each category
key, the latest index at which that category occurs. -/
def seenFold (seen : List (String × Nat)) (i : Nat) : List ChartMsg → List (String × Nat)
  | [] => seen
  | m :: rest => seenFold (aset m.category i seen) (i + 1) rest

/-- Boolean membership of an index, mirroring indices.includes(index). -/
def hasIdx (i : Nat) : List Nat → Bool
  | [] => false
  | j :: rest => (j == i) || hasIdx i rest

/-- Positional filter, mirroring Array.prototype.filter with the (msg,
index) callback signature used by the categorical filter. -/
def filterIdx (p : Nat → Bool) (i : Nat) : List ChartMsg → List ChartMsg
  | [] => []
  | m :: rest => if p i then m :: filterIdx p (i + 1) rest else filterIdx p (i + 1) rest

/-- The categorical collapse block of onInput (ui_chart.js lines 170 to
184): record the latest index seen for each category, then keep only the
messages stored at one of those latest indices. -/
def onInputCategoryFilter (history : List ChartMsg) : List ChartMsg :=
  let seen := seenFold [] 0 history
  let indices := avalues seen
  filterIdx (fun i => hasIdx i indices) 0 history

/-- The count-window loop of onInput (ui_chart.js lines 189 to 201)
processed over the reversed history: the JavaScript for loop walks the
array from its last index down to 0 and splices an element out once its
label has already kept maxPoints entries, which is exactly this recursion
on the reversed list. A lineCounts[label] read defaults to 0. -/
def removeOlderLoop (maxPoints : Nat) (lineCounts : List (String × Nat)) :
    List ChartMsg → List ChartMsg
  | [] => []
  | m :: rest =>
    let c := (alookup m.topic lineCounts).getD 0
    if maxPoints ≤ c then removeOlderLoop maxPoints lineCounts rest
    else m :: removeOlderLoop maxPoints (aset m.topic (c + 1) lineCounts) rest

/-- The count-window block of onInput (ui_chart.js lines 185 to 203):
keep, per series label (msg.topic), only the latest maxPoints messages. -/
def onInputRemoveOlderPoints (maxPoints : Nat) (history : List ChartMsg) : List ChartMsg :=
  (removeOlderLoop maxPoints [] history.reverse).reverse

/-- The timestamp a stored message is compared against the cutoff with
(ui_chart.js lines 212 to 216): the datapoint x when already numeric,
else the result of Date parsing of the string form; the Date parser is
passed in as a function. -/
def deriveTimestamp (dateParse : String → Int) : XVal → Int
  | .num t => t
  | .str s => dateParse s

/-- The time-window block of onInput (ui_chart.js lines 205 to 220):
drop every message whose derived x timestamp is not strictly newer than
now minus removeOlder times removeOlderUnit seconds. -/
def onInputRemoveOlderTime (dateParse : String → Int) (now removeOlder removeOlderUnit : Int)
    (history : List ChartMsg) : List ChartMsg :=
  let ago := removeOlder * removeOlderUnit * 1000
  let cutoff := now - ago
  history.filter (fun m => cutoff < deriveTimestamp dateParse m.x)

/-- The chart configuration fields steering the eviction pipeline, with
parseInt and parseFloat already applied: none stands for an unset or
unparsable setting. -/
structure ChartConfig where
  xAxisType : String
  removeOlderPoints : Option Nat
  removeOlder : Option Int
  removeOlderUnit : Option Int
deriving DecidableEq, Repr

/-- The eviction pipeline run after each append in onInput (ui_chart.js
lines 168 to 220): the categorical collapse when the x axis is
categorical, else the count window when maxPoints parses truthy
(nonzero); then additionally the time window when the axis is time-based
and both removeOlder and removeOlderUnit are configured. -/
def chartEvict (dateParse : String → Int) (now : Int) (cfg : ChartConfig)
    (history : List ChartMsg) : List ChartMsg :=
  let h1 :=
    if cfg.xAxisType = "category" then onInputCategoryFilter history
    else
      match cfg.removeOlderPoints with
      | some maxPoints =>
        if maxPoints ≠ 0 then onInputRemoveOlderPoints maxPoints history else history
      | none => history
  if cfg.xAxisType = "time" then
    match cfg.removeOlder, cfg.removeOlderUnit with
    | some ro, some rou => onInputRemoveOlderTime dateParse now ro rou h1
    | _, _ => h1
  else h1

/-- Concrete history with categories x, y, x, z, y in order, as in the
spec example for the categorical eviction policy. -/
def histFiveCats : List ChartMsg :=
  [⟨"x", "t", .num 0⟩, ⟨"y", "t", .num 1⟩, ⟨"x", "t", .num 2⟩,
   ⟨"z", "t", .num 3⟩, ⟨"y", "t", .num 4⟩]

/-- Concrete history of five points all labeled series A, as in the spec
example for the count-window eviction policy. -/
def histFiveA : List ChartMsg :=
  [⟨"", "A", .num 1⟩, ⟨"", "A", .num 2⟩, ⟨"", "A", .num 3⟩,
   ⟨"", "A", .num 4⟩, ⟨"", "A", .num 5⟩]

/-- Concrete history with three time-stamped points at now minus 120
seconds, now minus 30 seconds and now, for now equal to 1000000
milliseconds, as in the spec example for the time-window policy. -/
def histTimed : List ChartMsg :=
  [⟨"", "A", .num 880000⟩, ⟨"", "A", .num 970000⟩, ⟨"", "A", .num 1000000⟩]

/-!
Widget action routing (ui-base onAction, src/unnamed/part_002 lines 495
to 539).
-/

/-- A message flowing through the action router; payload and topic
suffice to observe the transformations the router applies. -/
structure ActionMsg where
  payload : Int
  topic : String
deriving DecidableEq, Repr

/-- The event hook set a widget registered (widget.hooks as read by
onAction): whether an onAction handler is declared, and the optional
beforeSend transform. -/
structure WidgetEvents where
  onAction : Bool
  beforeSend : Option (ActionMsg → ActionMsg)

/-- The widget node resolved through the runtime by onAction. -/
structure ActionWNode where
  id : String
deriving DecidableEq, Repr

/-- Observable outcome of one widget-action event: suppressed by a
plugin hook, silently ended without a send, or forwarded to wNode.send
with the final message. -/
inductive ActionResult where
  | suppressed
  | noop
  | sent (m : ActionMsg)
deriving DecidableEq, Repr

/-- The plugin onAction hook chain (src/unnamed/part_002 lines 497 to
501): each hook runs only while msg is still truthy and may null it
out. -/
def runOnActionHooks (hooks : List (ActionMsg → Option ActionMsg))
    (msg : Option ActionMsg) : Option ActionMsg :=
  hooks.foldl
    (fun m h =>
      match m with
      | some x => h x
      | none => none)
    msg

/-- The widget beforeSend transform, applied when present (lines 527 to
530). -/
def applyBeforeSend (evts : WidgetEvents) (m : ActionMsg) : ActionMsg :=
  match evts.beforeSend with
  | some f => f m
  | none => m

/-- onAction (src/unnamed/part_002 lines 495 to 539): run the plugin
hook chain (ending silently when the message is nulled), attach the
connection credentials, resolve the widget; when the widget node is
missing or the widget declares no onAction event handler, end silently;
otherwise append the topic, apply beforeSend when present, and forward
the result via wNode.send. The host-supplied addConnectionCredentials
and appendTopic transforms are passed in as functions; the catch branch
of the source is unreachable here because all embedded transforms are
total. -/
def onAction (hooks : List (ActionMsg → Option ActionMsg))
    (addCreds : ActionMsg → ActionMsg) (appendTopic : ActionMsg → ActionMsg)
    (wNode : Option ActionWNode) (widgetEvents : WidgetEvents)
    (msg0 : Option ActionMsg) : ActionResult :=
  match runOnActionHooks hooks msg0 with
  | none => .suppressed
  | some m1 =>
    let m2 := addCreds m1
    match wNode with
    | none => .noop
    | some _ =>
      if widgetEvents.onAction then
        .sent (applyBeforeSend widgetEvents (appendTopic m2))
      else .noop

/-!
Merged config emission (ui-base emitConfig, src/unnamed/part_002 lines
363 to 401).
-/

/-- JavaScript object spread merge of two objects: keys of a keep their
position with values overridden by b where b also has the key; keys only
in b are appended in their order (so b, the state store, wins on
conflicts). -/
def mergeObj (a b : List (String × SVal)) : List (String × SVal) :=
  a.map (fun kv => (kv.1, (alookup kv.1 b).getD kv.2))
    ++ b.filter (fun kv => (alookup kv.1 a).isNone)

/-- A registered widget as emitConfig reads and writes it: its props bag
and its state snapshot. -/
structure Widget9 where
  props : List (String × SVal)
  state : List (String × SVal)
deriving DecidableEq, Repr

/-- The node.ui maps as read by emitConfig. -/
structure UIMaps where
  dashboards : List (String × List (String × SVal))
  heads : List (String × List (String × SVal))
  pages : List (String × List (String × SVal))
  themes : List (String × List (String × SVal))
  groups : List (String × List (String × SVal))
  widgets : List (String × Widget9)
deriving DecidableEq, Repr

/-- The ui-config payload emitted to a socket, built by Object.fromEntries
over the maps. -/
structure UIConfigPayload where
  dashboards : List (String × List (String × SVal))
  heads : List (String × List (String × SVal))
  pages : List (String × List (String × SVal))
  themes : List (String × List (String × SVal))
  groups : List (String × List (String × SVal))
  widgets : List (String × Widget9)
deriving DecidableEq, Repr

/-- The in-place mutation emitConfig performs on one widget entry
(src/unnamed/part_002 lines 365 to 372): when the state store holds
entries for the id, both props and state are overwritten with their
state-merged versions. -/
def mergeWidgetEntry (store : StateStore) (id : String) (w : Widget9) : Widget9 :=
  match getAll store id with
  | some st => { props := mergeObj w.props st, state := mergeObj w.state st }
  | none => w

/-- The replacement emitConfig performs on one page or group entry
(src/unnamed/part_002 lines 375 to 390): when the state store holds
entries for the id, the entry is replaced by its state-merged copy. -/
def mergePlainEntry (store : StateStore) (id : String)
    (p : List (String × SVal)) : List (String × SVal) :=
  match getAll store id with
  | some st => mergeObj p st
  | none => p

/-- emitConfig (src/unnamed/part_002 lines 363 to 401) as state passing:
mutate the registry maps by merging state-store entries into every
widget, page and group that has them, then emit the mutated maps as the
ui-config payload. Returns the mutated registry and the emitted
snapshot. -/
def emitConfig (store : StateStore) (ui : UIMaps) : UIMaps × UIConfigPayload :=
  let widgets := ui.widgets.map (fun kv => (kv.1, mergeWidgetEntry store kv.1 kv.2))
  let pages := ui.pages.map (fun kv => (kv.1, mergePlainEntry store kv.1 kv.2))
  let groups := ui.groups.map (fun kv => (kv.1, mergePlainEntry store kv.1 kv.2))
  let ui2 : UIMaps := { ui with widgets := widgets, pages := pages, groups := groups }
  (ui2,
   { dashboards := ui2.dashboards, heads := ui2.heads, pages := ui2.pages,
     themes := ui2.themes, groups := ui2.groups, widgets := ui2.widgets })

/-- Concrete state store and registry for exercising emitConfig: widget
w1 has a dynamic visible override, page p1 a dynamic class override. -/
def storeDemo : StateStore :=
  [("w1", [("visible", SVal.b false)]), ("p1", [("class", SVal.s "dark")])]

/-- Concrete registry for exercising emitConfig. -/
def uiMapsDemo : UIMaps :=
  { dashboards := [("d1", [])]
    heads := []
    pages := [("p1", [("name", SVal.s "Page One")])]
    themes := [("t1", [])]
    groups := [("g1", [("page", SVal.s "p1")])]
    widgets := [("w1", { props := [("visible", SVal.b true), ("color", SVal.s "red")]
                         state := [("visible", SVal.b true)] })] }

end NodeRedDashboard

namespace NodeRedDashboard

/-- Helper: a list of booleans that are all true does not contain false. -/
theorem contains_false_of_all_true :
    ∀ (l : List Bool), (∀ b ∈ l, b = true) → l.contains false = false := by
  intro l
  induction l with
  | nil => intro _; rfl
  | cons b rest ih =>
    intro h
    have hb : b = true := h b (List.mem_cons_self b rest)
    have hrest : ∀ x ∈ rest, x = true := fun x hx => h x (List.mem_cons_of_mem b hx)
    have := ih hrest
    simp [List.contains, hb] at this ⊢
    exact this

/-- Helper: membership implies boolean containment for boolean lists. -/
theorem contains_of_mem {l : List Bool} {x : Bool} (h : x ∈ l) : l.contains x = true := by
  induction l with
  | nil => cases h
  | cons b rest ih =>
    rcases List.mem_cons.mp h with h1 | h2
    · simp [List.contains, h1]
    · simp [List.contains]
      exact Or.inr (by simpa [List.contains] using ih h2)

/-- Helper: a list with an appended element is not empty. -/
theorem isEmpty_append_singleton {α : Type} (l : List α) (x : α) :
    (l ++ [x]).isEmpty = false := by
  cases l <;> rfl

/-- C1: requestEmitConfig is a debounced coalescer. Starting from a state
with no pending emission, the first of N calls schedules a timer for 300
time units later and marks the emission pending; every further call while
the flag is set (in particular every later call of the burst) is a no-op;
no emission happens during the burst; and when the timer fires exactly
one ui-config fan-out to the connected sockets is appended to the trace,
with the pending flag cleared only by that fire. -/
theorem requestEmitConfig_debounce (t0 : Nat) (ts : List Nat) (s : DebounceState)
    (h : s.emitConfigRequested = none) :
    (ts.foldl (fun st t => requestEmitConfig t st) (requestEmitConfig t0 s))
        = requestEmitConfig t0 s ∧
    (requestEmitConfig t0 s).emitConfigRequested = some (t0 + debounceInterval) ∧
    (requestEmitConfig t0 s).emitted = s.emitted ∧
    (∀ conns,
      fireEmitTimer conns
          (ts.foldl (fun st t => requestEmitConfig t st) (requestEmitConfig t0 s))
        = { emitConfigRequested := none, emitted := s.emitted ++ [conns] }) ∧
    (∀ t u, u.emitConfigRequested ≠ none → requestEmitConfig t u = u) := by
  have noop : ∀ t (u : DebounceState), u.emitConfigRequested ≠ none →
      requestEmitConfig t u = u := by
    intro t u hu
    unfold requestEmitConfig
    cases hcase : u.emitConfigRequested with
    | some v => rfl
    | none => exact absurd hcase hu
  have hfirst : (requestEmitConfig t0 s).emitConfigRequested = some (t0 + debounceInterval) := by
    unfold requestEmitConfig
    rw [h]
  have hfold : ∀ (l : List Nat) (u : DebounceState), u.emitConfigRequested ≠ none →
      l.foldl (fun st t => requestEmitConfig t st) u = u := by
    intro l
    induction l with
    | nil => intro u _; rfl
    | cons t rest ih =>
      intro u hu
      have hstep : requestEmitConfig t u = u := noop t u hu
      simp only [List.foldl_cons, hstep]
      exact ih u hu
  have hne : (requestEmitConfig t0 s).emitConfigRequested ≠ none := by
    rw [hfirst]; exact Option.some_ne_none _
  have hfoldEq := hfold ts (requestEmitConfig t0 s) hne
  refine ⟨hfoldEq, hfirst, ?_, ?_, noop⟩
  · unfold requestEmitConfig
    rw [h]
  · intro conns
    rw [hfoldEq]
    unfold fireEmitTimer
    congr 1
    unfold requestEmitConfig
    rw [h]

/-- C2 counterexample: the claim that canSendTo is false for every
message addressed to a different socket id fails when the widget node
type is not listed in acceptsClientConfig: with the default setting and a
ui-chart widget node, a message targeted at socket sockB is still
eligible for connection sockA, because canSendTo ignores the constraint
entirely for such node types. -/
theorem canSendTo_mismatched_target_counterexample :
    msgSocketId ⟨some ⟨some "sockB"⟩⟩ = some "sockB" ∧
    "sockB" ≠ "sockA" ∧
    canSendTo defaultAcceptsClientConfig [] ⟨"sockA"⟩ (some ⟨"ui-chart"⟩)
      ⟨some ⟨some "sockB"⟩⟩ = true := by
  refine ⟨rfl, by decide, ?_⟩
  rfl

/-- C2 (amended): when the widget node permits client constraints (it is
absent, or its type is listed in acceptsClientConfig), a message whose
declared target socket id differs from the connection id is never
eligible for that connection; and a message with no declared target and
no objecting onIsValidConnection hook is eligible for every connection
regardless of the widget node. -/
theorem canSendTo_targeting (acceptsClientConfig : List String)
    (hooks : List (Conn → MsgC → Bool)) (conn : Conn) (wNode : Option WNodeC) (msg : MsgC) :
    (∀ sid, msgSocketId msg = some sid → sid ≠ "" → sid ≠ conn.id →
      nodeAllowsConstraints acceptsClientConfig wNode = true →
      canSendTo acceptsClientConfig hooks conn wNode msg = false) ∧
    (msgSocketId msg = none → (∀ h ∈ hooks, h conn msg = true) →
      canSendTo acceptsClientConfig hooks conn wNode msg = true) := by
  constructor
  · intro sid hsid hne hneConn hallow
    have hinvalid : isValidConnection hooks conn msg = false := by
      simp only [isValidConnection, hsid, if_neg hne]
      have hfalse : (sid == conn.id) = false := by
        exact beq_eq_false_iff_ne.mpr hneConn
      have hmem : false ∈ (hooks.map (fun h => h conn msg) ++ [sid == conn.id]) := by
        rw [hfalse]
        exact List.mem_append_right _ (List.mem_singleton.mpr rfl)
      have hcont := contains_of_mem hmem
      rw [hcont, isEmpty_append_singleton]
      rfl
    unfold canSendTo
    rw [hallow, hinvalid]
    rfl
  · intro hnone hhooks
    have hvalid : isValidConnection hooks conn msg = true := by
      simp only [isValidConnection, hnone]
      have hall : ∀ b ∈ hooks.map (fun h => h conn msg), b = true := by
        intro b hb
        rcases List.mem_map.mp hb with ⟨h2, hh2, rfl⟩
        exact hhooks h2 hh2
      rw [contains_false_of_all_true _ hall]
      simp
    unfold canSendTo
    rw [hvalid]
    cases hcase : nodeAllowsConstraints acceptsClientConfig wNode <;> rfl

/-- Witness for C2 (amended) at concrete inputs: a targeted message to a
different socket is blocked for a null widget node, and an untargeted
message with no hooks is eligible. -/
theorem canSendTo_targeting_witness :
    canSendTo defaultAcceptsClientConfig [] ⟨"sockA"⟩ none ⟨some ⟨some "sockB"⟩⟩ = false ∧
    canSendTo defaultAcceptsClientConfig [] ⟨"sockA"⟩ (some ⟨"ui-chart"⟩) ⟨none⟩ = true := by
  constructor
  · exact (canSendTo_targeting defaultAcceptsClientConfig [] ⟨"sockA"⟩ none
      ⟨some ⟨some "sockB"⟩⟩).1 "sockB" rfl (by decide) (by decide) rfl
  · exact (canSendTo_targeting defaultAcceptsClientConfig [] ⟨"sockA"⟩ (some ⟨"ui-chart"⟩)
      ⟨none⟩).2 rfl (by intro h hh; cases hh)

/-- Helper: looking up a key after aset finds the new value at that key
and is unchanged elsewhere. -/
theorem alookup_aset {α : Type} (k k2 : String) (v : α) :
    ∀ (l : List (String × α)),
      alookup k2 (aset k v l) = if k = k2 then some v else alookup k2 l := by
  intro l
  induction l with
  | nil =>
    by_cases h : k = k2
    · simp [aset, alookup, h]
    · simp [aset, alookup, h]
  | cons kv rest ih =>
    by_cases h1 : kv.1 = k
    · by_cases h2 : k = k2
      · simp [aset, alookup, h1, h2]
      · have h3 : ¬ (kv.1 = k2) := by rw [h1]; exact h2
        simp [aset, alookup, h1, h2, h3]
    · by_cases h3 : kv.1 = k2
      · have h4 : ¬ (k = k2) := fun he => h1 (by rw [he, h3])
        have h5 : ¬ (k2 = k) := fun he => h4 he.symm
        simp [aset, alookup, h1, h3, h4, h5]
      · simp [aset, alookup, h1, h3, ih]

/-- Helper: setProperty stores the written property. -/
theorem getProperty_setProperty_self (s : StateStore) (id prop : String) (v : SVal) :
    getProperty (setProperty s id prop v) id prop = some v := by
  induction s with
  | nil => simp [setProperty, getProperty, alookup, aset]
  | cons kv rest ih =>
    by_cases h : kv.1 = id
    · simp [setProperty, getProperty, alookup, h, alookup_aset]
    · simp only [setProperty, if_neg h]
      simp only [getProperty, alookup, if_neg h] at ih ⊢
      exact ih

/-- Helper: setProperty leaves every other (id, property) slot unchanged. -/
theorem getProperty_setProperty_ne (s : StateStore) (id prop i q : String) (v : SVal)
    (h : ¬ (i = id ∧ q = prop)) :
    getProperty (setProperty s id prop v) i q = getProperty s i q := by
  induction s with
  | nil =>
    by_cases h1 : id = i
    · have h2 : ¬ (q = prop) := fun hq => h ⟨h1.symm, hq⟩
      have h3 : ¬ (prop = q) := fun hp => h2 hp.symm
      simp [setProperty, getProperty, alookup, h1, h3]
    · simp [setProperty, getProperty, alookup, h1]
  | cons kv rest ih =>
    by_cases h1 : kv.1 = id
    · by_cases h2 : kv.1 = i
      · have hiq : ¬ (q = prop) := fun hq => h ⟨by rw [← h2, h1], hq⟩
        have hne : ¬ (prop = q) := fun hp => hiq hp.symm
        have hidi : id = i := by rw [← h1, h2]
        simp [setProperty, getProperty, alookup, h1, h2, hidi, alookup_aset, hne]
      · have hni : ¬ (id = i) := fun he => h2 (by rw [h1, he])
        simp [setProperty, getProperty, alookup, h1, h2, hni]
    · by_cases h2 : kv.1 = i
      · have hni : ¬ (i = id) := fun he => h1 (by rw [h2, he])
        simp [setProperty, getProperty, alookup, h1, h2, hni]
      · simp only [setProperty, if_neg h1]
        simp only [getProperty, alookup, if_neg h2] at ih ⊢
        exact ih

/-- Helper: a stored property value survives a guarded default write (the
write only happens when the guarded slot is still undefined, so it can
never overwrite an existing value). -/
theorem getProperty_guardedSet_preserve (s : StateStore) (id prop : String) (dv : SVal)
    (i q : String) (v : SVal) (h : getProperty s i q = some v) :
    getProperty
      (if getProperty s id prop = none then setProperty s id prop dv else s) i q
      = some v := by
  by_cases hg : getProperty s id prop = none
  · rw [if_pos hg]
    have hne : ¬ (i = id ∧ q = prop) := by
      rintro ⟨rfl, rfl⟩
      rw [h] at hg
      cases hg
    rw [getProperty_setProperty_ne s id prop i q dv hne]
    exact h
  · rw [if_neg hg]
    exact h

/-- Helper: a guarded default write of a different property name does not
change the slot being read. -/
theorem getProperty_guardedSet_other (s : StateStore) (id prop : String) (dv : SVal)
    (i q : String) (hq : ¬ (q = prop)) :
    getProperty
      (if getProperty s id prop = none then setProperty s id prop dv else s) i q
      = getProperty s i q := by
  by_cases hg : getProperty s id prop = none
  · rw [if_pos hg]
    exact getProperty_setProperty_ne s id prop i q dv (fun hand => hq hand.2)
  · rw [if_neg hg]

/-- C4: the defaults enabled, visible and class are each seeded at
registration only when that property is not yet set for the widget id; an
existing state-store entry for the id is never overwritten; and a second
registration of the same id leaves the state store exactly as it was. -/
theorem registerDefaultStates_seed_once :
    (∀ (s : StateStore) (id p : String) (v : SVal), getProperty s id p = some v →
      getProperty (registerDefaultStates id s) id p = some v) ∧
    (∀ (s : StateStore) (id : String), getProperty s id "enabled" = none →
      getProperty (registerDefaultStates id s) id "enabled" = some (SVal.b true)) ∧
    (∀ (s : StateStore) (id : String), getProperty s id "visible" = none →
      getProperty (registerDefaultStates id s) id "visible" = some (SVal.b true)) ∧
    (∀ (s : StateStore) (id : String), getProperty s id "class" = none →
      getProperty (registerDefaultStates id s) id "class" = some (SVal.s "")) ∧
    (∀ (s : StateStore) (id : String),
      registerDefaultStates id (registerDefaultStates id s) = registerDefaultStates id s) := by
  have preserve : ∀ (s : StateStore) (id p : String) (v : SVal),
      getProperty s id p = some v →
      getProperty (registerDefaultStates id s) id p = some v := by
    intro s id p v h
    simp only [registerDefaultStates]
    exact getProperty_guardedSet_preserve _ id "class" (SVal.s "") id p _
      (getProperty_guardedSet_preserve _ id "visible" (SVal.b true) id p _
        (getProperty_guardedSet_preserve _ id "enabled" (SVal.b true) id p _ h))
  have seed_e : ∀ (s : StateStore) (id : String), getProperty s id "enabled" = none →
      getProperty (registerDefaultStates id s) id "enabled" = some (SVal.b true) := by
    intro s id h
    simp only [registerDefaultStates]
    have h1 : getProperty
        (if getProperty s id "enabled" = none
         then setProperty s id "enabled" (SVal.b true) else s) id "enabled"
        = some (SVal.b true) := by
      rw [if_pos h]
      exact getProperty_setProperty_self s id "enabled" (SVal.b true)
    exact getProperty_guardedSet_preserve _ id "class" (SVal.s "") id "enabled" _
      (getProperty_guardedSet_preserve _ id "visible" (SVal.b true) id "enabled" _ h1)
  have seed_v : ∀ (s : StateStore) (id : String), getProperty s id "visible" = none →
      getProperty (registerDefaultStates id s) id "visible" = some (SVal.b true) := by
    intro s id h
    simp only [registerDefaultStates]
    have h1 : getProperty
        (if getProperty s id "enabled" = none
         then setProperty s id "enabled" (SVal.b true) else s) id "visible"
        = none := by
      rw [getProperty_guardedSet_other s id "enabled" (SVal.b true) id "visible" (by decide)]
      exact h
    have h2 : getProperty
        (if getProperty
              (if getProperty s id "enabled" = none
               then setProperty s id "enabled" (SVal.b true) else s) id "visible" = none
         then setProperty
            (if getProperty s id "enabled" = none
             then setProperty s id "enabled" (SVal.b true) else s) id "visible" (SVal.b true)
         else
            (if getProperty s id "enabled" = none
             then setProperty s id "enabled" (SVal.b true) else s)) id "visible"
        = some (SVal.b true) := by
      rw [if_pos h1]
      exact getProperty_setProperty_self _ id "visible" (SVal.b true)
    exact getProperty_guardedSet_preserve _ id "class" (SVal.s "") id "visible" _ h2
  have seed_c : ∀ (s : StateStore) (id : String), getProperty s id "class" = none →
      getProperty (registerDefaultStates id s) id "class" = some (SVal.s "") := by
    intro s id h
    simp only [registerDefaultStates]
    have h1 : getProperty
        (if getProperty
              (if getProperty s id "enabled" = none
               then setProperty s id "enabled" (SVal.b true) else s) id "visible" = none
         then setProperty
            (if getProperty s id "enabled" = none
             then setProperty s id "enabled" (SVal.b true) else s) id "visible" (SVal.b true)
         else
            (if getProperty s id "enabled" = none
             then setProperty s id "enabled" (SVal.b true) else s)) id "class"
        = none := by
      rw [getProperty_guardedSet_other _ id "visible" (SVal.b true) id "class" (by decide)]
      rw [getProperty_guardedSet_other s id "enabled" (SVal.b true) id "class" (by decide)]
      exact h
    rw [if_pos h1]
    exact getProperty_setProperty_self _ id "class" (SVal.s "")
  refine ⟨preserve, seed_e, seed_v, seed_c, ?_⟩
  intro s id
  have he : ∃ v, getProperty (registerDefaultStates id s) id "enabled" = some v := by
    by_cases hg : getProperty s id "enabled" = none
    · exact ⟨SVal.b true, seed_e s id hg⟩
    · obtain ⟨v, hv⟩ : ∃ v, getProperty s id "enabled" = some v := by
        cases hcase : getProperty s id "enabled" with
        | none => exact absurd hcase hg
        | some v => exact ⟨v, rfl⟩
      exact ⟨v, preserve s id "enabled" v hv⟩
  have hvis : ∃ v, getProperty (registerDefaultStates id s) id "visible" = some v := by
    by_cases hg : getProperty s id "visible" = none
    · exact ⟨SVal.b true, seed_v s id hg⟩
    · obtain ⟨v, hv⟩ : ∃ v, getProperty s id "visible" = some v := by
        cases hcase : getProperty s id "visible" with
        | none => exact absurd hcase hg
        | some v => exact ⟨v, rfl⟩
      exact ⟨v, preserve s id "visible" v hv⟩
  have hcls : ∃ v, getProperty (registerDefaultStates id s) id "class" = some v := by
    by_cases hg : getProperty s id "class" = none
    · exact ⟨SVal.s "", seed_c s id hg⟩
    · obtain ⟨v, hv⟩ : ∃ v, getProperty s id "class" = some v := by
        cases hcase : getProperty s id "class" with
        | none => exact absurd hcase hg
        | some v => exact ⟨v, rfl⟩
      exact ⟨v, preserve s id "class" v hv⟩
  obtain ⟨v1, h1⟩ := he
  obtain ⟨v2, h2⟩ := hvis
  obtain ⟨v3, h3⟩ := hcls
  generalize hS : registerDefaultStates id s = S at h1 h2 h3 ⊢
  have e1 : ¬ (getProperty S id "enabled" = none) := by rw [h1]; simp
  have e2 : ¬ (getProperty S id "visible" = none) := by rw [h2]; simp
  have e3 : ¬ (getProperty S id "class" = none) := by rw [h3]; simp
  simp only [registerDefaultStates]
  rw [if_neg e1, if_neg e2, if_neg e3]

/-- Witness for C4 at concrete inputs: seeding an empty store writes the
three defaults, and a pre-existing enabled value false is preserved. -/
theorem registerDefaultStates_seed_once_witness :
    getProperty (registerDefaultStates "w1" []) "w1" "enabled" = some (SVal.b true) ∧
    getProperty
      (registerDefaultStates "w1" [("w1", [("enabled", SVal.b false)])]) "w1" "enabled"
      = some (SVal.b false) ∧
    registerDefaultStates "w1" (registerDefaultStates "w1" [])
      = registerDefaultStates "w1" [] := by
  refine ⟨?_, ?_, ?_⟩
  · exact registerDefaultStates_seed_once.2.1 [] "w1" rfl
  · exact registerDefaultStates_seed_once.1 [("w1", [("enabled", SVal.b false)])]
      "w1" "enabled" (SVal.b false) rfl
  · exact registerDefaultStates_seed_once.2.2.2.2 [] "w1"

/-- C3 (code bug demonstration): deregistering widget w1 while widget w2
still belongs to group g1 nevertheless removes g1, because the group
filter runs over spread [key, value] Map entries whose props field is
undefined, so it never finds a remaining widget. The claim (and the
comments in the source) say the group is removed only when it has no
widgets left. -/
theorem deregister_removes_nonempty_group :
    deregister none (some ⟨"g1"⟩) (some ⟨"w1"⟩) uiTwoWidgets =
      .ok ({ dashboards := [("d1", ())], themes := [("t1", ())], pages := [("p1", ())],
             groups := [], widgets := [("w2", ⟨some "g1", false⟩)] }, true) ∧
    alookup "w2" uiTwoWidgets.widgets = some ⟨some "g1", false⟩ := by
  constructor
  · rfl
  · rfl

/-- C10: calling deregister with a widgetNode whose id is not in
node.ui.widgets throws a TypeError (the source dereferences widget.hooks
on the undefined result of the Map lookup) instead of being a no-op,
while for every widgetNode whose id is present deregister returns
normally, whatever the page and group arguments are. -/
theorem deregister_missing_widget_throws :
    (∀ (ui : UIRegistry) (wn : WNodeRef), alookup wn.id ui.widgets = none →
      deregister none none (some wn) ui = .error .typeError) ∧
    (∀ (ui : UIRegistry) (page : Option PageRef) (group : Option GroupRef) (wn : WNodeRef),
      (alookup wn.id ui.widgets).isSome = true →
      ∃ out, deregister page group (some wn) ui = .ok out) := by
  constructor
  · intro ui wn h
    simp [deregister, h]
  · intro ui page group wn h
    rcases Option.isSome_iff_exists.mp h with ⟨w, hw⟩
    simp only [deregister, hw]
    exact ⟨_, rfl⟩

/-- Witness for C10: a missing id throws, a present id succeeds. -/
theorem deregister_missing_widget_throws_witness :
    deregister none none (some ⟨"nope"⟩) uiTwoWidgets = .error .typeError ∧
    ∃ out, deregister none (some ⟨"g1"⟩) (some ⟨"w1"⟩) uiTwoWidgets = .ok out := by
  constructor
  · exact deregister_missing_widget_throws.1 uiTwoWidgets ⟨"nope"⟩ rfl
  · exact deregister_missing_widget_throws.2 uiTwoWidgets none (some ⟨"g1"⟩) ⟨"w1"⟩ rfl

/-- Helper: hasIdx agrees with list membership. -/
theorem hasIdx_iff_mem (i : Nat) :
    ∀ (l : List Nat), hasIdx i l = true ↔ i ∈ l := by
  intro l
  induction l with
  | nil => simp [hasIdx]
  | cons j rest ih =>
    simp only [hasIdx, Bool.or_eq_true, beq_iff_eq, ih, List.mem_cons]
    constructor
    · rintro (h | h)
      · exact Or.inl h.symm
      · exact Or.inr h
    · rintro (h | h)
      · exact Or.inl h.symm
      · exact Or.inr h

/-- Helper: keys after aset are the written key plus the old keys. -/
theorem mem_akeys_aset {α : Type} (k k2 : String) (v : α) :
    ∀ (l : List (String × α)), k2 ∈ akeys (aset k v l) ↔ k2 = k ∨ k2 ∈ akeys l := by
  intro l
  induction l with
  | nil => simp [aset, akeys]
  | cons kv rest ih =>
    by_cases h1 : kv.1 = k
    · simp only [aset, if_pos h1, akeys, List.map_cons, List.mem_cons]
      constructor
      · rintro (h | h)
        · exact Or.inr (Or.inl (by rw [h]))
        · exact Or.inr (Or.inr h)
      · rintro (h | h | h)
        · exact Or.inl (by rw [h, h1])
        · exact Or.inl h
        · exact Or.inr h
    · simp only [aset, if_neg h1, akeys, List.map_cons, List.mem_cons]
      simp only [akeys] at ih
      rw [ih]
      constructor
      · rintro (h | h | h)
        · exact Or.inr (Or.inl h)
        · exact Or.inl h
        · exact Or.inr (Or.inr h)
      · rintro (h | h | h)
        · exact Or.inr (Or.inl h)
        · exact Or.inl h
        · exact Or.inr (Or.inr h)

/-- Helper: aset preserves distinctness of keys. -/
theorem nodup_akeys_aset {α : Type} (k : String) (v : α) :
    ∀ (l : List (String × α)), (akeys l).Nodup → (akeys (aset k v l)).Nodup := by
  intro l
  induction l with
  | nil => intro _; simp [aset, akeys]
  | cons kv rest ih =>
    intro h
    rw [akeys, List.map_cons, List.nodup_cons] at h
    by_cases h1 : kv.1 = k
    · rw [aset, if_pos h1, akeys, List.map_cons, List.nodup_cons]
      exact ⟨h.1, h.2⟩
    · rw [aset, if_neg h1, akeys, List.map_cons, List.nodup_cons]
      refine ⟨?_, ih h.2⟩
      intro hmem
      rcases (mem_akeys_aset k kv.1 v rest).mp hmem with he | hmem2
      · exact h1 he
      · exact h.1 hmem2

/-- Helper: a successful lookup means the key is present. -/
theorem alookup_mem_akeys {α : Type} (k : String) (v : α) :
    ∀ (l : List (String × α)), alookup k l = some v → k ∈ akeys l := by
  intro l
  induction l with
  | nil => intro h; cases h
  | cons kv rest ih =>
    intro h
    rw [alookup] at h
    by_cases h1 : kv.1 = k
    · rw [akeys, List.map_cons]
      exact List.mem_cons.mpr (Or.inl h1.symm)
    · rw [if_neg h1] at h
      rw [akeys, List.map_cons]
      exact List.mem_cons.mpr (Or.inr (ih h))

/-- Helper: a successful lookup produces a value of the list. -/
theorem mem_avalues_of_alookup {α : Type} (k : String) (v : α) :
    ∀ (l : List (String × α)), alookup k l = some v → v ∈ avalues l := by
  intro l
  induction l with
  | nil => intro h; cases h
  | cons kv rest ih =>
    intro h
    rw [alookup] at h
    by_cases h1 : kv.1 = k
    · rw [if_pos h1] at h
      injection h with h2
      rw [avalues, List.map_cons]
      exact List.mem_cons.mpr (Or.inl h2.symm)
    · rw [if_neg h1] at h
      rw [avalues, List.map_cons]
      exact List.mem_cons.mpr (Or.inr (ih h))

/-- Helper: with distinct keys, every value of the list is reachable by a
lookup. -/
theorem alookup_of_mem_avalues {α : Type} (v : α) :
    ∀ (l : List (String × α)), (akeys l).Nodup → v ∈ avalues l →
      ∃ k, alookup k l = some v := by
  intro l
  induction l with
  | nil => intro _ h; cases h
  | cons kv rest ih =>
    intro hnd h
    rw [akeys, List.map_cons, List.nodup_cons] at hnd
    rw [avalues, List.map_cons, List.mem_cons] at h
    rcases h with h | h
    · exact ⟨kv.1, by rw [alookup, if_pos rfl, h]⟩
    · obtain ⟨k, hk⟩ := ih hnd.2 h
      refine ⟨k, ?_⟩
      rw [alookup]
      have h1 : ¬ (kv.1 = k) := by
        intro he
        exact hnd.1 (by rw [he]; exact alookup_mem_akeys k v rest hk)
      rw [if_neg h1]
      exact hk

/-- Helper: seenFold over a history extended by one message asets the
category of that message to its (final) index. -/
theorem seenFold_append (m : ChartMsg) :
    ∀ (xs : List ChartMsg) (seen : List (String × Nat)) (i : Nat),
      seenFold seen i (xs ++ [m]) = aset m.category (i + xs.length) (seenFold seen i xs) := by
  intro xs
  induction xs with
  | nil => intro seen i; simp [seenFold]
  | cons x rest ih =>
    intro seen i
    simp only [List.cons_append, seenFold, List.append_eq]
    rw [ih]
    have h : i + 1 + rest.length = i + (x :: rest).length := by
      simp [List.length_cons]; omega
    rw [h]

/-- Helper: seenFold preserves distinctness of the category keys. -/
theorem nodup_akeys_seenFold :
    ∀ (xs : List ChartMsg) (seen : List (String × Nat)) (i : Nat),
      (akeys seen).Nodup → (akeys (seenFold seen i xs)).Nodup := by
  intro xs
  induction xs with
  | nil => intro seen i h; exact h
  | cons x rest ih =>
    intro seen i h
    exact ih _ _ (nodup_akeys_aset _ _ _ h)

/-- Helper: a category index recorded by seenFold points at a position of
the traversed list holding a message of that category (or was already in
the accumulator). -/
theorem seenFold_lookup_spec :
    ∀ (xs : List ChartMsg) (seen : List (String × Nat)) (i : Nat) (c : String) (j : Nat),
      alookup c (seenFold seen i xs) = some j →
      (∃ e, (j, e) ∈ idxList i xs ∧ e.category = c) ∨ alookup c seen = some j := by
  intro xs
  induction xs with
  | nil => intro seen i c j h; exact Or.inr h
  | cons x rest ih =>
    intro seen i c j h
    rw [seenFold] at h
    rcases ih _ _ _ _ h with ⟨e, he, hc⟩ | hlook
    · exact Or.inl ⟨e, by rw [idxList]; exact List.mem_cons.mpr (Or.inr he), hc⟩
    · rw [alookup_aset] at hlook
      by_cases hc : x.category = c
      · rw [if_pos hc] at hlook
        injection hlook with hj
        refine Or.inl ⟨x, ?_, hc⟩
        rw [← hj, idxList]
        exact List.mem_cons.mpr (Or.inl rfl)
      · rw [if_neg hc] at hlook
        exact Or.inr hlook

/-- Helper: positions enumerated by idxList lie in the offset range. -/
theorem idxList_lt :
    ∀ (xs : List ChartMsg) (i j : Nat) (e : ChartMsg),
      (j, e) ∈ idxList i xs → i ≤ j ∧ j < i + xs.length := by
  intro xs
  induction xs with
  | nil => intro i j e h; cases h
  | cons x rest ih =>
    intro i j e h
    rw [idxList] at h
    rcases List.mem_cons.mp h with h | h
    · have h1 : j = i ∧ e = x := by
        constructor
        · exact congrArg Prod.fst h
        · exact congrArg Prod.snd h
      rw [h1.1]
      simp [List.length_cons]
    · have := ih (i + 1) j e h
      constructor
      · omega
      · simp [List.length_cons]; omega

/-- Helper: one position holds one element. -/
theorem idxList_functional :
    ∀ (xs : List ChartMsg) (i j : Nat) (e1 e2 : ChartMsg),
      (j, e1) ∈ idxList i xs → (j, e2) ∈ idxList i xs → e1 = e2 := by
  intro xs
  induction xs with
  | nil => intro i j e1 e2 h; cases h
  | cons x rest ih =>
    intro i j e1 e2 h1 h2
    rw [idxList] at h1 h2
    rcases List.mem_cons.mp h1 with ha | ha <;> rcases List.mem_cons.mp h2 with hb | hb
    · have ha2 : e1 = x := congrArg Prod.snd ha
      have hb2 : e2 = x := congrArg Prod.snd hb
      rw [ha2, hb2]
    · have hj : j = i := congrArg Prod.fst ha
      have := (idxList_lt rest (i + 1) j e2 hb).1
      omega
    · have hj : j = i := congrArg Prod.fst hb
      have := (idxList_lt rest (i + 1) j e1 ha).1
      omega
    · exact ih (i + 1) j e1 e2 ha hb

/-- Helper: filterIdx over a history extended by one kept message. -/
theorem filterIdx_append_pos (p : Nat → Bool) (m : ChartMsg) :
    ∀ (xs : List ChartMsg) (i : Nat), p (i + xs.length) = true →
      filterIdx p i (xs ++ [m]) = filterIdx p i xs ++ [m] := by
  intro xs
  induction xs with
  | nil =>
    intro i h
    have h2 : p i = true := by simpa using h
    simp [filterIdx, h2]
  | cons x rest ih =>
    intro i h
    have h2 : p (i + 1 + rest.length) = true := by
      have he : i + 1 + rest.length = i + (x :: rest).length := by
        simp [List.length_cons]; omega
      rw [he]
      exact h
    simp only [List.cons_append, filterIdx, List.append_eq]
    rw [ih (i + 1) h2]
    by_cases hp : p i
    · rw [if_pos hp, if_pos hp, List.cons_append]
    · rw [if_neg hp, if_neg hp]

/-- Helper: filterIdx only removes elements. -/
theorem filterIdx_sublist (p : Nat → Bool) :
    ∀ (xs : List ChartMsg) (i : Nat), List.Sublist (filterIdx p i xs) xs := by
  intro xs
  induction xs with
  | nil => intro i; exact List.Sublist.refl _
  | cons x rest ih =>
    intro i
    rw [filterIdx]
    by_cases hp : p i
    · rw [if_pos hp]
      exact List.Sublist.cons₂ x (ih (i + 1))
    · rw [if_neg hp]
      exact List.Sublist.cons x (ih (i + 1))

/-- Helper: when a positional predicate agrees pointwise with an old
predicate conjoined with an element predicate, filterIdx with the new
predicate equals the old filterIdx post-filtered by the element
predicate. -/
theorem filterIdx_congr_filter (p1 p2 : Nat → Bool) (q : ChartMsg → Bool) :
    ∀ (xs : List ChartMsg) (i : Nat),
      (∀ je ∈ idxList i xs, p2 je.1 = (p1 je.1 && q je.2)) →
      filterIdx p2 i xs = (filterIdx p1 i xs).filter q := by
  intro xs
  induction xs with
  | nil => intro i _; rfl
  | cons x rest ih =>
    intro i h
    have hx : p2 i = (p1 i && q x) := h (i, x) (by rw [idxList]; exact List.mem_cons_self _ _)
    have hrest : ∀ je ∈ idxList (i + 1) rest, p2 je.1 = (p1 je.1 && q je.2) := by
      intro je hje
      exact h je (by rw [idxList]; exact List.mem_cons_of_mem _ hje)
    simp only [filterIdx]
    by_cases hp1 : p1 i
    · by_cases hq : q x = true
      · have hp2 : p2 i = true := by rw [hx, hp1, hq]; rfl
        rw [if_pos hp2, if_pos hp1, List.filter_cons_of_pos hq, ih _ hrest]
      · have hq2 : q x = false := by
          cases hcase : q x with
          | true => exact absurd hcase hq
          | false => rfl
        have hp2 : ¬ (p2 i = true) := by rw [hx, hp1, hq2]; simp
        rw [if_neg hp2, if_pos hp1, List.filter_cons_of_neg (by rw [hq2]; simp)]
        exact ih _ hrest
    · have hp1f : p1 i = false := by
        cases hcase : p1 i with
        | true => exact absurd hcase hp1
        | false => rfl
      have hp2 : ¬ (p2 i = true) := by rw [hx, hp1f]; simp
      rw [if_neg hp2, if_neg hp1]
      exact ih _ hrest

/-- Helper: values present after aset, with distinct keys: the new value,
plus every old value not stored under the overwritten key. -/
theorem mem_avalues_aset (k : String) (v j : Nat) (l : List (String × Nat))
    (hnd : (akeys l).Nodup) :
    j ∈ avalues (aset k v l) ↔
      (j = v ∨ ∃ c, ¬ (c = k) ∧ alookup c l = some j) := by
  constructor
  · intro h
    obtain ⟨c, hc⟩ := alookup_of_mem_avalues j (aset k v l) (nodup_akeys_aset k v l hnd) h
    rw [alookup_aset] at hc
    by_cases hck : k = c
    · rw [if_pos hck] at hc
      injection hc with h2
      exact Or.inl h2.symm
    · rw [if_neg hck] at hc
      exact Or.inr ⟨c, fun he => hck he.symm, hc⟩
  · rintro (rfl | ⟨c, hck, hc⟩)
    · refine mem_avalues_of_alookup k j _ ?_
      rw [alookup_aset, if_pos rfl]
    · refine mem_avalues_of_alookup c j _ ?_
      rw [alookup_aset, if_neg (fun he => hck he.symm)]
      exact hc

/-- Helper: appending one message to the history and collapsing keeps the
new message and drops every older message of its category, leaving the
rest of the collapsed history unchanged. -/
theorem onInputCategoryFilter_concat (xs : List ChartMsg) (m : ChartMsg) :
    onInputCategoryFilter (xs ++ [m]) =
      (onInputCategoryFilter xs).filter (fun e => !(e.category == m.category)) ++ [m] := by
  have hnd : (akeys (seenFold [] 0 xs)).Nodup :=
    nodup_akeys_seenFold xs [] 0 (by simp [akeys])
  have hbound : ∀ c j, alookup c (seenFold [] 0 xs) = some j → j < xs.length := by
    intro c j h
    rcases seenFold_lookup_spec xs [] 0 c j h with ⟨e, he, _⟩ | habs
    · have := (idxList_lt xs 0 j e he).2
      omega
    · cases habs
  have hcoher : ∀ c j e, alookup c (seenFold [] 0 xs) = some j →
      (j, e) ∈ idxList 0 xs → e.category = c := by
    intro c j e h hm
    rcases seenFold_lookup_spec xs [] 0 c j h with ⟨e2, he2, hc2⟩ | habs
    · rw [← hc2, idxList_functional xs 0 j e e2 hm he2]
    · cases habs
  have hseenApp : seenFold [] 0 (xs ++ [m]) = aset m.category xs.length (seenFold [] 0 xs) := by
    rw [seenFold_append]
    simp
  simp only [onInputCategoryFilter, hseenApp]
  have hkeepm :
      (fun i => hasIdx i (avalues (aset m.category xs.length (seenFold [] 0 xs))))
        (0 + xs.length) = true := by
    simp only [Nat.zero_add]
    rw [hasIdx_iff_mem]
    refine mem_avalues_of_alookup m.category xs.length _ ?_
    rw [alookup_aset, if_pos rfl]
  rw [filterIdx_append_pos _ m xs 0 hkeepm]
  have hmain :
      filterIdx (fun i => hasIdx i (avalues (aset m.category xs.length (seenFold [] 0 xs)))) 0 xs
        = (filterIdx (fun i => hasIdx i (avalues (seenFold [] 0 xs))) 0 xs).filter
            (fun e => !(e.category == m.category)) := by
    apply filterIdx_congr_filter
    intro je hje
    obtain ⟨j, e⟩ := je
    have hjlt : j < xs.length := by
      have := (idxList_lt xs 0 j e hje).2
      omega
    apply Bool.eq_iff_iff.mpr
    rw [hasIdx_iff_mem]
    rw [Bool.and_eq_true, hasIdx_iff_mem, Bool.not_eq_true', beq_eq_false_iff_ne]
    rw [mem_avalues_aset _ _ _ _ hnd]
    constructor
    · rintro (rfl | ⟨c, hck, hc⟩)
      · exact absurd hjlt (by simp)
      · refine ⟨mem_avalues_of_alookup c j _ hc, ?_⟩
        intro hcat
        have hceq : e.category = c := hcoher c j e hc hje
        exact hck (by rw [← hceq, hcat])
    · rintro ⟨hmem, hne⟩
      obtain ⟨c, hc⟩ := alookup_of_mem_avalues j (seenFold [] 0 xs) hnd hmem
      have hceq : e.category = c := hcoher c j e hc hje
      exact Or.inr ⟨c, fun he => hne (by rw [hceq, he]), hc⟩
  rw [hmain]

/-- C5: under categorical axis mode the eviction pipeline is exactly the
categorical collapse; the collapsed history is a sublist of the appended
history (surviving entries keep their relative order); and for every
category value it retains exactly the last stored entry bearing that
category (none when the category never occurs). -/
theorem chart_categorical_latest_per_category (dateParse : String → Int) (now : Int)
    (cfg : ChartConfig) (history : List ChartMsg) (hAxis : cfg.xAxisType = "category") :
    chartEvict dateParse now cfg history = onInputCategoryFilter history ∧
    List.Sublist (onInputCategoryFilter history) history ∧
    (∀ c, (onInputCategoryFilter history).filter (fun e => e.category == c)
        = ((history.filter (fun e => e.category == c)).getLast?).toList) := by
  have hpipe : chartEvict dateParse now cfg history = onInputCategoryFilter history := by
    simp [chartEvict, hAxis]
  have main : ∀ (l : List ChartMsg),
      List.Sublist (onInputCategoryFilter l) l ∧
      (∀ c, (onInputCategoryFilter l).filter (fun e => e.category == c)
          = ((l.filter (fun e => e.category == c)).getLast?).toList) := by
    intro l
    induction l using List.reverseRecOn with
    | nil =>
      constructor
      · exact List.Sublist.refl _
      · intro c
        rfl
    | append_singleton xs m ih =>
      rw [onInputCategoryFilter_concat]
      constructor
      · exact List.Sublist.append ((List.filter_sublist _).trans ih.1) (List.Sublist.refl [m])
      · intro c
        rw [List.filter_append, List.filter_append]
        by_cases hc : m.category = c
        · have h0 : ((onInputCategoryFilter xs).filter
              (fun e => !(e.category == m.category))).filter (fun e => e.category == c)
              = [] := by
            rw [List.filter_filter]
            apply List.filter_eq_nil_iff.mpr
            intro a _
            by_cases ha : a.category = c
            · simp [ha, hc]
            · simp [ha]
          have hm1 : [m].filter (fun e => e.category == c) = [m] := by
            have hb : (m.category == c) = true := beq_iff_eq.mpr hc
            simp [List.filter_cons, hb]
          rw [h0, hm1, List.nil_append, List.getLast?_concat]
          rfl
        · have hm0 : [m].filter (fun e => e.category == c) = [] := by
            have hb : (m.category == c) = false := beq_eq_false_iff_ne.mpr hc
            simp [List.filter_cons, hb]
          rw [hm0, List.append_nil, List.append_nil]
          rw [List.filter_filter]
          have hpt : ∀ a ∈ onInputCategoryFilter xs,
              ((a.category == c) && !(a.category == m.category)) = (a.category == c) := by
            intro a _
            by_cases ha : a.category = c
            · have hcm : ¬ (c = m.category) := fun he => hc he.symm
              simp [ha, hcm]
            · simp [ha]
          rw [List.filter_congr hpt]
          exact ih.2 c
  exact ⟨hpipe, (main history).1, (main history).2⟩

/-- Witness for C5: on the x, y, x, z, y example the pipeline keeps
exactly the last x, the last z and the last y, in their original order,
and the per-category characterization applies at category x. -/
theorem chart_categorical_latest_per_category_witness :
    chartEvict (fun _ => 0) 0 ⟨"category", none, none, none⟩ histFiveCats
      = onInputCategoryFilter histFiveCats ∧
    (onInputCategoryFilter histFiveCats).filter (fun e => e.category == "x")
      = ((histFiveCats.filter (fun e => e.category == "x")).getLast?).toList ∧
    onInputCategoryFilter histFiveCats
      = [⟨"x", "t", .num 2⟩, ⟨"z", "t", .num 3⟩, ⟨"y", "t", .num 4⟩] := by
  have h := chart_categorical_latest_per_category (fun _ => 0) 0
    ⟨"category", none, none, none⟩ histFiveCats rfl
  exact ⟨h.1, h.2.2 "x", by decide⟩

/-- Helper: the count-window loop only removes elements. -/
theorem removeOlderLoop_sublist (N : Nat) :
    ∀ (l : List ChartMsg) (counts : List (String × Nat)),
      List.Sublist (removeOlderLoop N counts l) l := by
  intro l
  induction l with
  | nil => intro counts; exact List.Sublist.refl _
  | cons m rest ih =>
    intro counts
    simp only [removeOlderLoop]
    by_cases hc : N ≤ (alookup m.topic counts).getD 0
    · rw [if_pos hc]
      exact List.Sublist.cons m (ih counts)
    · rw [if_neg hc]
      exact List.Sublist.cons₂ m (ih _)

/-- Helper: per series label, the count-window loop keeps exactly the
first maxPoints minus already-counted occurrences it meets. -/
theorem removeOlderLoop_filter (N : Nat) (t : String) :
    ∀ (l : List ChartMsg) (counts : List (String × Nat)),
      (removeOlderLoop N counts l).filter (fun m => m.topic == t)
        = (l.filter (fun m => m.topic == t)).take (N - (alookup t counts).getD 0) := by
  intro l
  induction l with
  | nil => intro counts; simp [removeOlderLoop]
  | cons m rest ih =>
    intro counts
    simp only [removeOlderLoop]
    by_cases hN : N ≤ (alookup m.topic counts).getD 0
    · rw [if_pos hN]
      by_cases ht : m.topic = t
      · have h0 : N - (alookup t counts).getD 0 = 0 := by
          rw [← ht]; omega
        have hb : (m.topic == t) = true := beq_iff_eq.mpr ht
        rw [ih counts, List.filter_cons_of_pos (by rw [hb]), h0, List.take_zero, List.take_zero]
      · have hb : (m.topic == t) = false := beq_eq_false_iff_ne.mpr ht
        rw [ih counts, List.filter_cons_of_neg (by rw [hb]; simp)]
    · rw [if_neg hN]
      have hlt : (alookup m.topic counts).getD 0 < N := Nat.lt_of_not_le hN
      by_cases ht : m.topic = t
      · have hb : (m.topic == t) = true := beq_iff_eq.mpr ht
        rw [List.filter_cons_of_pos (by rw [hb]), List.filter_cons_of_pos (by rw [hb])]
        rw [ih]
        have hlook : (alookup t (aset m.topic ((alookup m.topic counts).getD 0 + 1) counts)).getD 0
            = (alookup t counts).getD 0 + 1 := by
          rw [alookup_aset, if_pos ht, ht]
          rfl
        rw [hlook, ← ht]
        have harith : N - (alookup m.topic counts).getD 0
            = (N - ((alookup m.topic counts).getD 0 + 1)) + 1 := by omega
        rw [harith, List.take_succ_cons]
      · have hb : (m.topic == t) = false := beq_eq_false_iff_ne.mpr ht
        rw [List.filter_cons_of_neg (by rw [hb]; simp), List.filter_cons_of_neg (by rw [hb]; simp)]
        rw [ih]
        have hlook : alookup t (aset m.topic ((alookup m.topic counts).getD 0 + 1) counts)
            = alookup t counts := by
          rw [alookup_aset, if_neg ht]
        rw [hlook]

/-- Helper: the count-window block only removes elements. -/
theorem onInputRemoveOlderPoints_sublist (N : Nat) (history : List ChartMsg) :
    List.Sublist (onInputRemoveOlderPoints N history) history := by
  have h1 := (removeOlderLoop_sublist N history.reverse []).reverse
  rw [List.reverse_reverse] at h1
  exact h1

/-- Helper: per series label, the count-window block keeps exactly the
latest maxPoints entries of that label, in their original order. -/
theorem onInputRemoveOlderPoints_filter (N : Nat) (history : List ChartMsg) (t : String) :
    (onInputRemoveOlderPoints N history).filter (fun m => m.topic == t)
      = ((history.filter (fun m => m.topic == t)).reverse.take N).reverse := by
  show ((removeOlderLoop N [] history.reverse).reverse).filter (fun m => m.topic == t)
      = ((history.filter (fun m => m.topic == t)).reverse.take N).reverse
  rw [List.filter_reverse, removeOlderLoop_filter, List.filter_reverse]
  simp [alookup]

/-- C6: with a nonzero maxPoints configured and a non-categorical axis:
the count-window block keeps, per series label (msg.topic), exactly the
latest maxPoints entries of that label in their original relative order;
and the whole eviction pipeline factors through that block (followed at
most by the time window, which only removes further entries), so after
each append the history retains at most the maxPoints most recent
entries per distinct label, independently per label, with the surviving
entries in their original relative order — whatever the axis type and
time-window configuration. -/
theorem chart_count_window_per_series (dateParse : String → Int) (now : Int)
    (cfg : ChartConfig) (N : Nat) (history : List ChartMsg)
    (hAxis : cfg.xAxisType ≠ "category")
    (hN : cfg.removeOlderPoints = some N) (hNz : N ≠ 0) :
    List.Sublist (onInputRemoveOlderPoints N history) history ∧
    (∀ t, (onInputRemoveOlderPoints N history).filter (fun m => m.topic == t)
        = ((history.filter (fun m => m.topic == t)).reverse.take N).reverse) ∧
    List.Sublist (chartEvict dateParse now cfg history)
      (onInputRemoveOlderPoints N history) ∧
    List.Sublist (chartEvict dateParse now cfg history) history ∧
    (∀ t, List.Sublist
        ((chartEvict dateParse now cfg history).filter (fun m => m.topic == t))
        ((history.filter (fun m => m.topic == t)).reverse.take N).reverse) ∧
    (∀ t, ((chartEvict dateParse now cfg history).filter (fun m => m.topic == t)).length
        ≤ N) := by
  have hsub : List.Sublist (onInputRemoveOlderPoints N history) history :=
    onInputRemoveOlderPoints_sublist N history
  have hfilter : ∀ t, (onInputRemoveOlderPoints N history).filter (fun m => m.topic == t)
      = ((history.filter (fun m => m.topic == t)).reverse.take N).reverse :=
    onInputRemoveOlderPoints_filter N history
  have hfactor : List.Sublist (chartEvict dateParse now cfg history)
      (onInputRemoveOlderPoints N history) := by
    by_cases ht : cfg.xAxisType = "time"
    · cases hro : cfg.removeOlder with
      | none =>
        have heq : chartEvict dateParse now cfg history
            = onInputRemoveOlderPoints N history := by
          simp [chartEvict, hAxis, hN, hNz, ht, hro]
        rw [heq]
      | some ro =>
        cases hrou : cfg.removeOlderUnit with
        | none =>
          have heq : chartEvict dateParse now cfg history
              = onInputRemoveOlderPoints N history := by
            simp [chartEvict, hAxis, hN, hNz, ht, hro, hrou]
          rw [heq]
        | some rou =>
          have heq : chartEvict dateParse now cfg history
              = onInputRemoveOlderTime dateParse now ro rou
                  (onInputRemoveOlderPoints N history) := by
            simp [chartEvict, hAxis, hN, hNz, ht, hro, hrou]
          rw [heq]
          exact List.filter_sublist _
    · have heq : chartEvict dateParse now cfg history
          = onInputRemoveOlderPoints N history := by
        simp [chartEvict, hAxis, hN, hNz, ht]
      rw [heq]
  have hperlabel : ∀ t, List.Sublist
      ((chartEvict dateParse now cfg history).filter (fun m => m.topic == t))
      ((history.filter (fun m => m.topic == t)).reverse.take N).reverse := by
    intro t
    have h5 := List.Sublist.filter (fun m => m.topic == t) hfactor
    rw [hfilter t] at h5
    exact h5
  refine ⟨hsub, hfilter, hfactor, hfactor.trans hsub, hperlabel, ?_⟩
  intro t
  have hlen := (hperlabel t).length_le
  rw [List.length_reverse, List.length_take] at hlen
  exact hlen.trans (Nat.min_le_left _ _)

/-- Witness for C6: five points labeled A with maxPoints 3 keep exactly
the last three, in order, and the pipeline keeps at most three per
label. -/
theorem chart_count_window_per_series_witness :
    (onInputRemoveOlderPoints 3 histFiveA).filter (fun m => m.topic == "A")
      = ((histFiveA.filter (fun m => m.topic == "A")).reverse.take 3).reverse ∧
    ((chartEvict (fun _ => 0) 0 ⟨"linear", some 3, none, none⟩ histFiveA).filter
        (fun m => m.topic == "A")).length ≤ 3 ∧
    onInputRemoveOlderPoints 3 histFiveA
      = [⟨"", "A", .num 3⟩, ⟨"", "A", .num 4⟩, ⟨"", "A", .num 5⟩] := by
  have h := chart_count_window_per_series (fun _ => 0) 0 ⟨"linear", some 3, none, none⟩
    3 histFiveA (by decide) rfl (by decide)
  exact ⟨h.2.1 "A", h.2.2.2.2.2 "A", by decide⟩

/-- C7 counterexample: with a time axis, a 60 second retention window
and additionally a count window of one point, the entry at now minus 30
seconds is strictly newer than the cutoff and yet evicted (by the
count-window pass that the source runs before the time window), so the
claim that every entry newer than the cutoff is retained fails at this
input. -/
theorem chart_time_window_retention_counterexample :
    (⟨"", "A", .num 970000⟩ : ChartMsg) ∈ histTimed ∧
    (1000000 : Int) - 60 * 1 * 1000
      < deriveTimestamp (fun _ => 0) (XVal.num 970000) ∧
    ¬ ((⟨"", "A", .num 970000⟩ : ChartMsg) ∈
        chartEvict (fun _ => 0) 1000000 ⟨"time", some 1, some 60, some 1⟩ histTimed) := by
  refine ⟨by decide, by decide, by decide⟩

/-- C7 (amended): with a time axis and a configured retention window,
every entry the pipeline retains was stored and has its derived
timestamp (the numeric datapoint x, or the Date parse of its string
form) strictly newer than now minus removeOlder times removeOlderUnit
seconds — so every entry older than the cutoff is removed — and the
survivors keep their original relative order; the time-window block
itself retains exactly the newer-than-cutoff entries; and when no
truthy count window is additionally configured the whole pipeline
equals that block, so then every entry newer than the cutoff is also
retained. -/
theorem chart_time_window (dateParse : String → Int) (now ro rou : Int)
    (cfg : ChartConfig) (history : List ChartMsg)
    (hAxis : cfg.xAxisType = "time") (hRo : cfg.removeOlder = some ro)
    (hRou : cfg.removeOlderUnit = some rou) :
    (∀ m, m ∈ chartEvict dateParse now cfg history →
      (m ∈ history ∧ now - ro * rou * 1000 < deriveTimestamp dateParse m.x)) ∧
    List.Sublist (chartEvict dateParse now cfg history) history ∧
    (∀ m, m ∈ onInputRemoveOlderTime dateParse now ro rou history ↔
      (m ∈ history ∧ now - ro * rou * 1000 < deriveTimestamp dateParse m.x)) ∧
    ((cfg.removeOlderPoints = none ∨ cfg.removeOlderPoints = some 0) →
      chartEvict dateParse now cfg history
        = onInputRemoveOlderTime dateParse now ro rou history) := by
  have hgen : ∀ (l : List ChartMsg) (m : ChartMsg),
      m ∈ onInputRemoveOlderTime dateParse now ro rou l →
      (m ∈ l ∧ now - ro * rou * 1000 < deriveTimestamp dateParse m.x) := by
    intro l m hm
    simpa [onInputRemoveOlderTime, List.mem_filter, decide_eq_true_iff] using hm
  have hfact : chartEvict dateParse now cfg history
        = onInputRemoveOlderTime dateParse now ro rou history ∨
      ∃ k, chartEvict dateParse now cfg history
        = onInputRemoveOlderTime dateParse now ro rou
            (onInputRemoveOlderPoints k history) := by
    cases hp : cfg.removeOlderPoints with
    | none =>
      left
      simp [chartEvict, hAxis, hRo, hRou, hp]
    | some k =>
      by_cases hk : k = 0
      · left
        simp [chartEvict, hAxis, hRo, hRou, hp, hk]
      · right
        exact ⟨k, by simp [chartEvict, hAxis, hRo, hRou, hp, hk]⟩
  refine ⟨?_, ?_, ?_, ?_⟩
  · intro m hm
    rcases hfact with heq | ⟨k, heq⟩
    · rw [heq] at hm
      exact hgen history m hm
    · rw [heq] at hm
      obtain ⟨hm1, hts⟩ := hgen _ m hm
      exact ⟨(onInputRemoveOlderPoints_sublist k history).subset hm1, hts⟩
  · rcases hfact with heq | ⟨k, heq⟩
    · rw [heq]
      exact List.filter_sublist history
    · rw [heq]
      exact (List.filter_sublist _).trans (onInputRemoveOlderPoints_sublist k history)
  · intro m
    constructor
    · exact hgen history m
    · intro hm
      simpa [onInputRemoveOlderTime, List.mem_filter, decide_eq_true_iff] using hm
  · rintro (hp | hp)
    · simp [chartEvict, hAxis, hRo, hRou, hp]
    · simp [chartEvict, hAxis, hRo, hRou, hp]

/-- Witness for C7 (amended): with a 60 second window at now 1000000 ms
and no count window, the pipeline is the time-window block, the point at
now minus 120 s is characterized as dropped, and exactly the now minus
30 s and now points remain. -/
theorem chart_time_window_witness :
    chartEvict (fun _ => 0) 1000000 ⟨"time", none, some 60, some 1⟩ histTimed
      = onInputRemoveOlderTime (fun _ => 0) 1000000 60 1 histTimed ∧
    ((⟨"", "A", .num 880000⟩ : ChartMsg) ∈
        onInputRemoveOlderTime (fun _ => 0) 1000000 60 1 histTimed ↔
      ((⟨"", "A", .num 880000⟩ : ChartMsg) ∈ histTimed ∧
        (1000000 : Int) - 60 * 1 * 1000
          < deriveTimestamp (fun _ => 0) (XVal.num 880000))) ∧
    onInputRemoveOlderTime (fun _ => 0) 1000000 60 1 histTimed
      = [⟨"", "A", .num 970000⟩, ⟨"", "A", .num 1000000⟩] := by
  have h := chart_time_window (fun _ => 0) 1000000 60 1 ⟨"time", none, some 60, some 1⟩
    histTimed rfl rfl rfl
  exact ⟨h.2.2.2 (Or.inl rfl), h.2.2.1 ⟨"", "A", .num 880000⟩, by decide⟩

/-- C8 counterexample: a widget-action event whose message survives the
hook chain and whose widget resolves is nevertheless NOT forwarded when
the widget declares no onAction event handler: the source also requires
widgetEvents.onAction before sending, so the claim that every resolved
widget receives the forwarded message fails at this input. -/
theorem onAction_requires_handler_counterexample :
    runOnActionHooks [] (some ⟨1, "t"⟩) = some ⟨1, "t"⟩ ∧
    onAction [] (fun m => m) (fun m => m) (some ⟨"w1"⟩) ⟨false, none⟩ (some ⟨1, "t"⟩)
      = ActionResult.noop ∧
    ActionResult.noop ≠
      ActionResult.sent (applyBeforeSend ⟨false, none⟩ ((fun m => m) ((fun m => m)
        (⟨1, "t"⟩ : ActionMsg)))) := by
  refine ⟨rfl, rfl, ?_⟩
  intro h
  cases h

/-- C8 (amended): for every widget-action event whose message survives
the onAction plugin hook chain non-falsy: when the target widget cannot
be resolved or the resolved widget declares no onAction event handler,
the operation is a silent no-op; otherwise the message is credential-
decorated, topic-decorated, transformed by the widget beforeSend hook
when present, and forwarded to the widget node output via wNode.send. -/
theorem onAction_dispatch (hooks : List (ActionMsg → Option ActionMsg))
    (addCreds appendTopic : ActionMsg → ActionMsg) (wNode : Option ActionWNode)
    (evts : WidgetEvents) (msg0 : Option ActionMsg) (m1 : ActionMsg)
    (hsurv : runOnActionHooks hooks msg0 = some m1) :
    ((wNode = none ∨ evts.onAction = false) →
      onAction hooks addCreds appendTopic wNode evts msg0 = .noop) ∧
    (∀ w, wNode = some w → evts.onAction = true →
      onAction hooks addCreds appendTopic wNode evts msg0
        = .sent (applyBeforeSend evts (appendTopic (addCreds m1)))) := by
  constructor
  · rintro (rfl | hfalse)
    · simp [onAction, hsurv]
    · cases wNode with
      | none => simp [onAction, hsurv]
      | some w => simp [onAction, hsurv, hfalse]
  · rintro w rfl htrue
    simp [onAction, hsurv, htrue]

/-- Witness for C8 (amended) at concrete inputs: with an onAction
handler declared the message is topic-decorated and bumped by beforeSend
before the send; with a missing widget node the event is a no-op. -/
theorem onAction_dispatch_witness :
    onAction [] (fun m => m) (fun m => ⟨m.payload, "topic1"⟩) (some ⟨"w1"⟩)
        ⟨true, some (fun m => ⟨m.payload + 1, m.topic⟩)⟩ (some ⟨1, "t"⟩)
      = ActionResult.sent ⟨2, "topic1"⟩ ∧
    onAction [] (fun m => m) (fun m => m) none ⟨true, none⟩ (some ⟨1, "t"⟩)
      = ActionResult.noop := by
  constructor
  · have h := onAction_dispatch [] (fun m => m) (fun m => ⟨m.payload, "topic1"⟩)
      (some ⟨"w1"⟩) ⟨true, some (fun m => ⟨m.payload + 1, m.topic⟩)⟩
      (some ⟨1, "t"⟩) ⟨1, "t"⟩ rfl
    rw [h.2 ⟨"w1"⟩ rfl rfl]
    rfl
  · exact (onAction_dispatch [] (fun m => m) (fun m => m) none ⟨true, none⟩
      (some ⟨1, "t"⟩) ⟨1, "t"⟩ rfl).1 (Or.inl rfl)

/-- Helper: looking up a key after a key-preserving map applies the
entry function to the found value. -/
theorem alookup_map_keyed {β γ : Type} (g : String → β → γ) (id : String) :
    ∀ (l : List (String × β)),
      alookup id (l.map (fun kv => (kv.1, g kv.1 kv.2))) = (alookup id l).map (g id) := by
  intro l
  induction l with
  | nil => rfl
  | cons kv rest ih =>
    by_cases h : kv.1 = id
    · simp [alookup, h]
    · simp [alookup, h, ih]

/-- C9: emitConfig permanently mutates the registry, not only the
emitted snapshot: every widget entry whose id has state-store entries is
overwritten in node.ui.widgets with its state-merged props and state,
every page and group entry with state-store entries is replaced by its
state-merged copy, and the emitted ui-config payload consists of exactly
these post-mutation maps, so the pre-merge entries are no longer in the
registry after the emission. -/
theorem emitConfig_merges_registry (store : StateStore) (ui : UIMaps) :
    (∀ id w st, alookup id ui.widgets = some w → getAll store id = some st →
      alookup id (emitConfig store ui).1.widgets
        = some { props := mergeObj w.props st, state := mergeObj w.state st }) ∧
    (∀ id p st, alookup id ui.pages = some p → getAll store id = some st →
      alookup id (emitConfig store ui).1.pages = some (mergeObj p st)) ∧
    (∀ id g st, alookup id ui.groups = some g → getAll store id = some st →
      alookup id (emitConfig store ui).1.groups = some (mergeObj g st)) ∧
    (emitConfig store ui).2.widgets = (emitConfig store ui).1.widgets ∧
    (emitConfig store ui).2.pages = (emitConfig store ui).1.pages ∧
    (emitConfig store ui).2.groups = (emitConfig store ui).1.groups := by
  refine ⟨?_, ?_, ?_, rfl, rfl, rfl⟩
  · intro id w st h1 h2
    show alookup id (ui.widgets.map (fun kv => (kv.1, mergeWidgetEntry store kv.1 kv.2)))
        = some { props := mergeObj w.props st, state := mergeObj w.state st }
    rw [alookup_map_keyed (mergeWidgetEntry store) id ui.widgets, h1]
    simp [mergeWidgetEntry, h2]
  · intro id p st h1 h2
    show alookup id (ui.pages.map (fun kv => (kv.1, mergePlainEntry store kv.1 kv.2)))
        = some (mergeObj p st)
    rw [alookup_map_keyed (mergePlainEntry store) id ui.pages, h1]
    simp [mergePlainEntry, h2]
  · intro id g st h1 h2
    show alookup id (ui.groups.map (fun kv => (kv.1, mergePlainEntry store kv.1 kv.2)))
        = some (mergeObj g st)
    rw [alookup_map_keyed (mergePlainEntry store) id ui.groups, h1]
    simp [mergePlainEntry, h2]

/-- Witness for C9 at a concrete store and registry: the w1 widget entry
is overwritten with the visible override merged into props and state,
and the p1 page entry is replaced by its merged copy. -/
theorem emitConfig_merges_registry_witness :
    alookup "w1" (emitConfig storeDemo uiMapsDemo).1.widgets
      = some { props := mergeObj [("visible", SVal.b true), ("color", SVal.s "red")]
                          [("visible", SVal.b false)]
               state := mergeObj [("visible", SVal.b true)] [("visible", SVal.b false)] } ∧
    alookup "p1" (emitConfig storeDemo uiMapsDemo).1.pages
      = some (mergeObj [("name", SVal.s "Page One")] [("class", SVal.s "dark")]) ∧
    (emitConfig storeDemo uiMapsDemo).2.widgets
      = (emitConfig storeDemo uiMapsDemo).1.widgets := by
  have h := emitConfig_merges_registry storeDemo uiMapsDemo
  refine ⟨?_, ?_, h.2.2.2.1⟩
  · exact h.1 "w1" { props := [("visible", SVal.b true), ("color", SVal.s "red")]
                     state := [("visible", SVal.b true)] }
      [("visible", SVal.b false)] rfl rfl
  · exact h.2.1 "p1" [("name", SVal.s "Page One")] [("class", SVal.s "dark")] rfl rfl

/-- Witness for C1 at a concrete burst of three calls. -/
theorem requestEmitConfig_debounce_witness :
    ((⟨none, []⟩ : DebounceState).emitConfigRequested = none) ∧
    ([10, 20].foldl (fun st t => requestEmitConfig t st)
        (requestEmitConfig 0 ⟨none, []⟩) = requestEmitConfig 0 ⟨none, []⟩) ∧
    (∀ conns, fireEmitTimer conns
        ([10, 20].foldl (fun st t => requestEmitConfig t st)
          (requestEmitConfig 0 ⟨none, []⟩))
      = { emitConfigRequested := none, emitted := [] ++ [conns] }) := by
  have h := requestEmitConfig_debounce 0 [10, 20] ⟨none, []⟩ rfl
  exact ⟨rfl, h.1, h.2.2.2.1⟩

end NodeRedDashboard
